import Mathlib

/-!
Verification of the Amazon ranking scheduler's extraction and persistence
logic (src/amazonranking_matome.py), as a shallow embedding over
character lists.  Strings are modelled as List Char; the fallible I/O of
the two sheet writers is modelled by injecting an abstract outcome per
attempt.  Functions that scan a list by repeatedly dropping a computed
number of characters are written with an explicit fuel argument (fuel =
length of the input) so that they reduce by kernel computation; a
fuel-irrelevance lemma recovers the natural unfolding equations.
-/

namespace AmazonRanking

/-- Character strings of the Python source, modelled as lists of characters. -/
abbrev Str := List Char

/-- Whitespace class of Python's regex \s (the characters relevant here:
ASCII whitespace and the ideographic space U+3000). -/
def isWsCh (c : Char) : Bool :=
  c = ' ' || c = '\t' || c = '\n' || c = '\r' || c = '\x0b' || c = '\x0c' || c = '　'

/-- ASCII digit class, modelling \d on the inputs in scope. -/
def isDigitCh (c : Char) : Bool := '0' ≤ c && c ≤ '9'

/-- Character class [^\-:：] of the pair-extraction pattern: any character
other than an ASCII hyphen, an ASCII colon, or a full-width colon. -/
def isNC (c : Char) : Bool := c ≠ '-' && c ≠ ':' && c ≠ '：'

/-- Separator class [-−]: ASCII hyphen or the unicode minus U+2212. -/
def isSepCh (c : Char) : Bool := c = '-' || c = '−'

/-- Leftmost index at which pat occurs in hay (Python str.find, but
returning an Option instead of -1). -/
def strFind (pat : Str) : Str → Option Nat
  | [] => if pat = [] then some 0 else none
  | c :: rest =>
      if (c :: rest).take pat.length = pat then some 0
      else (strFind pat rest).map (fun n => n + 1)

/-- Leftmost index at or after start at which pat occurs in hay
(Python str.find with a start argument). -/
def strFindFrom (pat hay : Str) (start : Nat) : Option Nat :=
  (strFind pat (hay.drop start)).map (fun n => n + start)

/-- Substring containment test, used for the "Amazon"/"見る" noise filter
(Python's in operator on str). -/
def containsSub (pat hay : Str) : Bool := (strFind pat hay).isSome

/-- Sentinel string "-" filling ranking slots with no data. -/
def sentinel : Str := ['-']

/-- Column normalization step of extract_rankings_from_html (lines
121-126): pad a short list with sentinels on the right, truncate a long
list to its first expected_len entries. -/
def normalizeRow (rankings : List Str) (expected_len : Nat) : List Str :=
  if rankings.length < expected_len then
    rankings ++ List.replicate (expected_len - rankings.length) sentinel
  else if rankings.length > expected_len then
    rankings.take expected_len
  else
    rankings

/-- Length of the initial tag body in cs: the characters before the first
close angle bracket, provided no newline comes first (a dot in Python's
pattern <.*?> does not match a newline).  Returns none when the would-be
tag is not closed before a newline or the end of the text. -/
def tagEnd (cs : Str) : Option Nat :=
  let pre := cs.takeWhile (fun c => c ≠ '>' && c ≠ '\n')
  if (cs.drop pre.length).head? = some '>' then some pre.length else none

/-- Fueled worker for stripTags.  Models re.sub of the non-greedy tag
pattern with the empty string: at each open angle bracket whose tag is
closed before a newline, the whole tag is dropped and scanning resumes
after it; every other character is kept. -/
def stripTagsF : Nat → Str → Str
  | 0, _ => []
  | _ + 1, [] => []
  | fuel + 1, c :: rest =>
      if c = '<' then
        match tagEnd rest with
        | some k => stripTagsF fuel (rest.drop (k + 1))
        | none => c :: stripTagsF fuel rest
      else c :: stripTagsF fuel rest

/-- Tag-removal step of the cleaner (line 88 of the source). -/
def stripTags (l : Str) : Str := stripTagsF l.length l

/-- Fueled worker for collapse.  Models re.sub replacing every maximal
whitespace run with a single space (line 90 of the source). -/
def collapseF : Nat → Str → Str
  | 0, _ => []
  | _ + 1, [] => []
  | fuel + 1, c :: rest =>
      if isWsCh c then ' ' :: collapseF fuel (rest.dropWhile isWsCh)
      else c :: collapseF fuel rest

/-- Whitespace-collapsing step of the cleaner. -/
def collapse (l : Str) : Str := collapseF l.length l

/-- Fueled worker for substAll: given a matcher that reports how many
characters a pattern occurrence starting here consumes (always at least
one), drop every occurrence and keep the rest, scanning left to right.
This models re.sub of a pattern with the empty string. -/
def substAllF (m : Str → Option Nat) : Nat → Str → Str
  | 0, _ => []
  | _ + 1, [] => []
  | fuel + 1, c :: rest =>
      match m (c :: rest) with
      | some n => substAllF m fuel (rest.drop (n - 1))
      | none => c :: substAllF m fuel rest

/-- Left-to-right removal of every occurrence accepted by the matcher. -/
def substAll (m : Str → Option Nat) (l : Str) : Str := substAllF m l.length l

/-- Core boilerplate phrase 本の売れ筋ランキングを見る of the first
removal pattern. -/
def coreB : Str := "本の売れ筋ランキングを見る".toList

/-- Matcher for the pattern （?本の売れ筋ランキングを見る）? (line 93):
the core phrase with an optional full-width open parenthesis before it
and an optional full-width close parenthesis after it. -/
def matchB1 (cs : Str) : Option Nat :=
  if cs.take coreB.length = coreB then
    some (coreB.length + (if (cs.drop coreB.length).head? = some '）' then 1 else 0))
  else if cs.take (coreB.length + 1) = '（' :: coreB then
    some (coreB.length + 1 +
      (if (cs.drop (coreB.length + 1)).head? = some '）' then 1 else 0))
  else none

/-- Matcher for a literal phrase (the remaining removal patterns of lines
94-98 are all literals once their escapes are resolved). -/
def matchLit (lit : Str) (cs : Str) : Option Nat :=
  if cs.take lit.length = lit then some lit.length else none

/-- Boilerplate-phrase removal step of the cleaner (lines 93-98), the six
substitutions applied in source order. -/
def removeBoiler (l : Str) : Str :=
  substAll (matchLit "Audibleの売れ筋ランキングを見る".toList)
    (substAll (matchLit "Kindleストアの売れ筋ランキングを見る".toList)
      (substAll (matchLit coreB)
        (substAll (matchLit "(Audibleの売れ筋ランキングを見る)".toList)
          (substAll (matchLit "(Kindleストアの売れ筋ランキングを見る)".toList)
            (substAll matchB1 l)))))

/-- Cleaner: tag removal, whitespace collapsing, then boilerplate removal,
in the order of lines 88-98. -/
def cleanBlock (l : Str) : Str := removeBoiler (collapse (stripTags l))

/-- Greedy parse of the (?:,\d{3})* group sequence: as many
comma-plus-three-digits groups as possible, returning the consumed
characters and the remainder. -/
def parseGroups : Str → Str × Str
  | ',' :: a :: b :: c :: rest =>
      if isDigitCh a && isDigitCh b && isDigitCh c then
        let p := parseGroups rest
        (',' :: a :: b :: c :: p.1, p.2)
      else ([], ',' :: a :: b :: c :: rest)
  | cs => ([], cs)

/-- Attempt to parse the rank part \d{1,3}(?:,\d{3})*位 starting with
exactly m leading digits; returns the matched rank characters and the
total number of characters consumed. -/
def parseRankWith (m : Nat) (cs : Str) : Option (Str × Nat) :=
  let ds := cs.take m
  if ds.length = m && ds.all isDigitCh then
    let p := parseGroups (cs.drop m)
    match p.2 with
    | '位' :: _ => some (ds ++ p.1 ++ ['位'], m + p.1.length + 1)
    | _ => none
  else none

/-- Rank parse with the greedy backtracking of \d{1,3}: three digits
first, then two, then one. -/
def parseRank (cs : Str) : Option (Str × Nat) :=
  (parseRankWith 3 cs).orElse fun _ =>
    (parseRankWith 2 cs).orElse fun _ => parseRankWith 1 cs

/-- Attempt to match the whole pair pattern at the head of cs with a name
of exactly n characters: n characters of the class [^\-:：], then \s*,
a separator [-−], \s* again, then the rank.  Returns the name group, the
rank group and the total number of characters consumed. -/
def tryNameLen (cs : Str) (n : Nat) : Option (Str × Str × Nat) :=
  let nm := cs.take n
  if nm.length = n && nm.all isNC then
    let r1 := cs.drop n
    let w1 := (r1.takeWhile isWsCh).length
    match r1.drop w1 with
    | s :: r3 =>
        if isSepCh s then
          let w2 := (r3.takeWhile isWsCh).length
          match parseRank (r3.drop w2) with
          | some (rk, k) => some (nm, rk, n + w1 + 1 + w2 + k)
          | none => none
        else none
    | [] => none
  else none

/-- Attempt the name lengths in the given order, first success wins. -/
def tryMatchLens (cs : Str) : List Nat → Option (Str × Str × Nat)
  | [] => none
  | n :: ns => (tryNameLen cs n).orElse fun _ => tryMatchLens cs ns

/-- Match attempt at one start position: the lazy quantifier {2,80}? tries
name lengths 2 through 80 in ascending order. -/
def tryMatchAt (cs : Str) : Option (Str × Str × Nat) :=
  tryMatchLens cs (List.range' 2 79)

/-- Fueled worker for findAllMatches: scan start positions left to right;
on a match, emit its two groups and resume after the matched text
(re.findall semantics for the pair pattern of line 103). -/
def findAllF : Nat → Str → List (Str × Str)
  | 0, _ => []
  | _ + 1, [] => []
  | fuel + 1, c :: rest =>
      match tryMatchAt (c :: rest) with
      | some (nm, rk, k) => (nm, rk) :: findAllF fuel (rest.drop (k - 1))
      | none => findAllF fuel rest

/-- All (name, rank) group pairs of the pair pattern in document order. -/
def findAllMatches (l : Str) : List (Str × Str) := findAllF l.length l

/-- Python str.strip(): remove leading and trailing whitespace. -/
def stripEnds (l : Str) : Str :=
  ((l.dropWhile isWsCh).reverse.dropWhile isWsCh).reverse

/-- Matcher for the empty-parenthesis artifact pattern \(\s*\) removed
from rendered entries (line 118). -/
def matchEmptyParen (cs : Str) : Option Nat :=
  match cs with
  | '(' :: rest =>
      let w := (rest.takeWhile isWsCh).length
      if (rest.drop w).head? = some ')' then some (w + 2) else none
  | _ => none

/-- Noise test of line 114: a stripped name survives only when it contains
neither "Amazon" nor "見る". -/
def goodName (nm : Str) : Bool :=
  !(containsSub "Amazon".toList nm) && !(containsSub "見る".toList nm)

/-- Rendering of one surviving match (lines 116-118): the rank immediately
followed by the name, with any empty-parenthesis artifact removed. -/
def renderEntry (nm rk : Str) : Str := substAll matchEmptyParen (rk ++ nm)

/-- Rendering loop over the matches (lines 110-119): strip both groups,
skip noise matches, render the rest in order. -/
def renderLoop : List (Str × Str) → List Str
  | [] => []
  | (nm, rk) :: rest =>
      let nm' := stripEnds nm
      let rk' := stripEnds rk
      if goodName nm' then renderEntry nm' rk' :: renderLoop rest
      else renderLoop rest

/-- First marker phrase tried by the block locator (line 75). -/
def marker1 : Str := "Amazon 売れ筋ランキング:".toList

/-- Fallback marker phrase (line 77). -/
def marker2 : Str := "売れ筋ランキング:".toList

/-- Terminator phrase bounding the ranking block (line 82). -/
def terminator : Str := "カスタマーレビュー".toList

/-- Block locator (lines 75-85): find the first marker (marker1 with
priority, marker2 as fallback); on success slice the text from the marker
position to the first terminator occurrence at or after it, or to the end
of the text when the terminator is absent there. -/
def locateBlock (html : Str) : Option Str :=
  match (strFind marker1 html).orElse (fun _ => strFind marker2 html) with
  | none => none
  | some start =>
      let stop :=
        match strFindFrom terminator html start with
        | some e => e
        | none => html.length
      some ((html.take stop).drop start)

/-- Expected column count per source keyword (lines 80, 108, 122): 4 for
the print-book keyword 紙書籍, 2 otherwise. -/
def expectedLen (keyword : String) : Nat := if keyword = "紙書籍" then 4 else 2

/-- Extraction pipeline extract_rankings_from_html: locate the block,
clean it, extract the pairs, render them, and normalize the column count;
a missing marker or an empty match list yields the sentinel row. -/
def extract_rankings_from_html (html : Str) (keyword : String) : List Str :=
  match locateBlock html with
  | none => List.replicate (expectedLen keyword) sentinel
  | some block =>
      let b := cleanBlock block
      let ms := findAllMatches b
      if ms.isEmpty then List.replicate (expectedLen keyword) sentinel
      else normalizeRow (renderLoop ms) (expectedLen keyword)

/-- Test that no markup tag occurrence (an open angle bracket closed
before a newline) starts anywhere in the text, so that the tag-removal
step is a no-op. -/
def noTag : Str → Bool
  | [] => true
  | c :: rest => (if c = '<' then (tagEnd rest).isNone else true) && noTag rest

/-- Outcome of one body execution of the save loop of
save_to_excel_with_retry: the openpyxl load/append/save sequence either
completes, raises a PermissionError, or raises some other exception. -/
inductive SaveOutcome
  | success
  | permError
  | otherError
deriving DecidableEq

/-- Observable result of save_to_excel_with_retry: the returned boolean,
the number of attempts made, and the backoff waits (in seconds) performed
between attempts. -/
structure SaveResult where
  ok : Bool
  attempts : Nat
  backoffs : List Nat
deriving DecidableEq

/-- Retry loop of save_to_excel_with_retry (lines 177-231), with the
attempt bodies abstracted by an outcome per attempt index: success
returns true at once; a PermissionError sleeps 5 seconds and retries
unless it was the last allowed attempt; any other error returns false
immediately.  The second argument is the number of loop iterations still
allowed. -/
def saveRetryGo (att : Nat → SaveOutcome) : Nat → Nat → SaveResult
  | _, 0 => ⟨false, 0, []⟩
  | i, rem + 1 =>
      match att i with
      | .success => ⟨true, 1, []⟩
      | .permError =>
          if rem = 0 then ⟨false, 1, []⟩
          else
            let r := saveRetryGo att (i + 1) rem
            ⟨r.ok, r.attempts + 1, 5 :: r.backoffs⟩
      | .otherError => ⟨false, 1, []⟩

/-- The local sheet writer: run the retry loop from attempt 0 with
max_retries iterations allowed. -/
def save_to_excel_with_retry (att : Nat → SaveOutcome) (max_retries : Nat) : SaveResult :=
  saveRetryGo att 0 max_retries

/-- Row of a worksheet, a list of cell strings. -/
abbrev Row := List Str

/-- Sort key of a row: its first (timestamp) column, empty when absent. -/
def rowKey (r : Row) : Str := r.headD []

/-- Lexicographic comparison on cell strings, the order by which the
remote sheet sorts its first column. -/
def lexLe : Str → Str → Bool
  | [], _ => true
  | _ :: _, [] => false
  | a :: as, b :: bs => if a < b then true else if b < a then false else lexLe as bs

/-- Descending comparison on rows: a precedes b when the key of a is at
least the key of b. -/
def rowGe (a b : Row) : Bool := lexLe (rowKey b) (rowKey a)

/-- Insertion into a descending-sorted row list. -/
def insertDesc (r : Row) : List Row → List Row
  | [] => [r]
  | x :: xs => if rowGe r x then r :: x :: xs else x :: insertDesc r xs

/-- Insertion sort of rows, descending by first column; models
worksheet.sort((1, des)) of line 274. -/
def sortDesc : List Row → List Row
  | [] => []
  | x :: xs => insertDesc x (sortDesc xs)

/-- Adjacent-pair check that a row list is descending by first column. -/
def sortedDesc : List Row → Bool
  | [] => true
  | [_] => true
  | a :: b :: t => rowGe a b && sortedDesc (b :: t)

/-- Remote append step of append_to_google_sheet on the success path
(lines 269-275): append the row at the bottom, then sort the whole sheet
descending by the first column. -/
def append_row_and_sort (sheet : List Row) (row : Row) : List Row :=
  sortDesc (sheet ++ [row])

/-- Which step, if any, of the remote write raises: authorization, the
append call, the sort call, or none. -/
inductive RemoteOutcome
  | authFail
  | appendFail
  | sortFail
  | ok
deriving DecidableEq

/-- Observable trace of append_to_google_sheet: how many append_row and
sort calls were issued, whether an exception escaped the function, and
the Python return value (None modelled as none, a boolean b as some b). -/
structure RemoteTrace where
  appendCalls : Nat
  sortCalls : Nat
  raised : Bool
  retVal : Option Bool
deriving DecidableEq

/-- Remote sheet writer append_to_google_sheet (lines 233-278), with its
I/O abstracted by which step fails: a missing GOOGLE_CREDENTIALS
environment variable returns at once; otherwise the try block runs until
the failing step and every exception is caught by the except clause.
Every path of the Python function returns None. -/
def append_to_google_sheet (creds : Option Str) (out : RemoteOutcome) : RemoteTrace :=
  match creds with
  | none => ⟨0, 0, false, none⟩
  | some _ =>
      match out with
      | .authFail => ⟨0, 0, false, none⟩
      | .appendFail => ⟨1, 0, false, none⟩
      | .sortFail => ⟨1, 1, false, none⟩
      | .ok => ⟨1, 1, false, none⟩

/-- Observable trace of the persistence tail of the main script: the
remote writer trace, the row handed to the local writer, the primary
local write result, and the backup write result when the primary failed. -/
structure RunTrace where
  remote : RemoteTrace
  localRow : List Str
  localPrimary : SaveResult
  localBackup : Option SaveResult
deriving DecidableEq

/-- Persistence tail of the main script (lines 307-321): the remote
append runs first with the constructed row; the local write with default
max_retries 3 is then attempted with the same row regardless of the
remote outcome, falling back to the backup path once when the primary
write fails. -/
def runMain (creds : Option Str) (rout : RemoteOutcome)
    (att attB : Nat → SaveOutcome) (row : List Str) : RunTrace :=
  let rt := append_to_google_sheet creds rout
  let p := save_to_excel_with_retry att 3
  if p.ok then ⟨rt, row, p, none⟩
  else ⟨rt, row, p, some (save_to_excel_with_retry attB 3)⟩

/-- Claim C1: for every entry list of length k and every expected_len, the
column-normalization step returns a list of length exactly expected_len;
when k < expected_len it is the entries followed by expected_len - k
sentinels, and when k ≥ expected_len it is the first expected_len entries
in order. -/
theorem normalizeRow_spec (l : List Str) (e : Nat) :
    (normalizeRow l e).length = e ∧
    (l.length < e → normalizeRow l e = l ++ List.replicate (e - l.length) sentinel) ∧
    (e ≤ l.length → normalizeRow l e = l.take e) := by
  unfold normalizeRow
  refine ⟨?_, ?_, ?_⟩
  · by_cases h1 : l.length < e
    · simp [h1]
      omega
    · by_cases h2 : l.length > e
      · simp [h1, h2]
        omega
      · simp [h1, h2]
        omega
  · intro h1
    simp [h1]
  · intro h2
    by_cases h1 : l.length < e
    · omega
    · by_cases h3 : l.length > e
      · simp [h1, h3]
      · have hle : l.length = e := by omega
        simp [h1, h3]
        exact le_of_eq hle

/-- Witness for normalizeRow_spec: padding of one entry to length 3, and
truncation of three entries to length 2, at concrete inputs. -/
theorem normalizeRow_spec_witness :
    normalizeRow [['a']] 3 = [['a'], sentinel, sentinel] ∧
    normalizeRow [['a'], ['b'], ['c']] 2 = [['a'], ['b']] := by
  constructor
  · rw [(normalizeRow_spec [['a']] 3).2.1 (by decide)]
    decide
  · rw [(normalizeRow_spec [['a'], ['b'], ['c']] 2).2.2 (by decide)]
    decide

/-- Counterexample to claim C2: on the input of scenario A with the
non-print-book keyword Kindle, the pipeline does not return
["123位文学", "456位小説"].  The pair pattern reads category - rank, so
on this text the single match has name 123位文学 and rank 456位. -/
theorem extract_scenarioA_cex :
    extract_rankings_from_html
        "Amazon 売れ筋ランキング: 123位文学 - 456位小説 カスタマーレビュー".toList "Kindle" ≠
      ["123位文学".toList, "456位小説".toList] := by
  decide

/-- Claim C2 (amended): on the input of scenario A with the non-print-book
keyword Kindle, the pipeline returns the row ["456位123位文学", "-"]: the
one match is rendered as rank 456位 concatenated before the matched name
123位文学 and the row is padded with one sentinel. -/
theorem extract_scenarioA :
    extract_rankings_from_html
        "Amazon 売れ筋ランキング: 123位文学 - 456位小説 カスタマーレビュー".toList "Kindle" =
      ["456位123位文学".toList, sentinel] := by
  decide

/-- Claim C4: when no marker is found, or the pair pattern yields zero
matches on the cleaned block, the pipeline returns a row of exactly
expected_len sentinels (and, being a total function, never raises); in
particular any text containing neither marker phrase yields four
sentinels for the print-book keyword. -/
theorem extract_sentinel_fallback (html : Str) (kw : String) :
    (locateBlock html = none →
      extract_rankings_from_html html kw = List.replicate (expectedLen kw) sentinel) ∧
    (∀ b, locateBlock html = some b → findAllMatches (cleanBlock b) = [] →
      extract_rankings_from_html html kw = List.replicate (expectedLen kw) sentinel) ∧
    (strFind marker1 html = none → strFind marker2 html = none →
      extract_rankings_from_html html "紙書籍" = [sentinel, sentinel, sentinel, sentinel]) := by
  refine ⟨?_, ?_, ?_⟩
  · intro h
    simp [extract_rankings_from_html, h]
  · intro b hb hm
    simp [extract_rankings_from_html, hb, hm]
  · intro h1 h2
    have hnone : locateBlock html = none := by
      simp [locateBlock, h1, h2]
    simp [extract_rankings_from_html, hnone, expectedLen]

/-- Witness for extract_sentinel_fallback: a text with no marker phrase
and the print-book keyword, and a text whose block yields no pattern
match with the Kindle keyword. -/
theorem extract_sentinel_fallback_witness :
    extract_rankings_from_html "no ranking here".toList "紙書籍" =
      [sentinel, sentinel, sentinel, sentinel] ∧
    extract_rankings_from_html "売れ筋ランキング:nothing".toList "Kindle" =
      List.replicate (expectedLen "Kindle") sentinel := by
  constructor
  · exact (extract_sentinel_fallback "no ranking here".toList "紙書籍").2.2
      (by decide) (by decide)
  · exact (extract_sentinel_fallback "売れ筋ランキング:nothing".toList "Kindle").2.1
      "売れ筋ランキング:nothing".toList (by decide) (by decide)

/-- Rendering loop as a filter of the stripped matches followed by a map:
the loop keeps exactly the matches whose stripped name passes the noise
test, renders them, and preserves their order without deduplication. -/
theorem renderLoop_eq_filterMap (ms : List (Str × Str)) :
    renderLoop ms =
      (((ms.map fun p => (stripEnds p.1, stripEnds p.2)).filter
        fun p => goodName p.1).map fun p => renderEntry p.1 p.2) := by
  induction ms with
  | nil => rfl
  | cons p rest ih =>
      obtain ⟨nm, rk⟩ := p
      by_cases hg : goodName (stripEnds nm)
      · simp [renderLoop, hg, ih, List.filter_cons]
      · simp [renderLoop, hg, ih, List.filter_cons]

/-- Claim C5: for every cleaned block, the pair extractor's output equals
the document-order list of matches with both groups stripped, restricted
to those whose name contains neither "Amazon" nor "見る", each rendered
as rank followed by name with the empty-parenthesis artifact removed; a
discarded match contributes nothing and no deduplication occurs. -/
theorem pairExtractor_noise_filter (block : Str) :
    renderLoop (findAllMatches block) =
      ((((findAllMatches block).map fun p => (stripEnds p.1, stripEnds p.2)).filter
        fun p => goodName p.1).map fun p => renderEntry p.1 p.2) :=
  renderLoop_eq_filterMap (findAllMatches block)

/-- Success of strFind yields an occurrence: the pattern is the prefix of
the suffix of hay at the returned index. -/
theorem strFind_some_occurs (pat : Str) :
    ∀ (hay : Str) (i : Nat), strFind pat hay = some i →
      (hay.drop i).take pat.length = pat := by
  intro hay
  induction hay with
  | nil =>
      intro i h
      unfold strFind at h
      by_cases hp : pat = []
      · simp [hp] at h ⊢
      · simp [hp] at h
  | cons c rest ih =>
      intro i h
      unfold strFind at h
      by_cases hc : (c :: rest).take pat.length = pat
      · simp [hc] at h
        subst h
        simpa using hc
      · simp [hc] at h
        obtain ⟨n, hn, hi⟩ := h
        subst hi
        simpa using ih n hn

/-- Minimality of strFind: no occurrence of the pattern starts strictly
before the returned index. -/
theorem strFind_some_first (pat : Str) :
    ∀ (hay : Str) (i : Nat), strFind pat hay = some i →
      ∀ j, j < i → (hay.drop j).take pat.length ≠ pat := by
  intro hay
  induction hay with
  | nil =>
      intro i h
      unfold strFind at h
      by_cases hp : pat = []
      · simp [hp] at h
        omega
      · simp [hp] at h
  | cons c rest ih =>
      intro i h
      unfold strFind at h
      by_cases hc : (c :: rest).take pat.length = pat
      · simp [hc] at h
        omega
      · simp [hc] at h
        obtain ⟨n, hn, hi⟩ := h
        subst hi
        intro j hj
        match j with
        | 0 => simpa using hc
        | k + 1 =>
            have := ih n hn k (by omega)
            simpa using this

/-- Failure of strFind means the pattern occurs nowhere in hay. -/
theorem strFind_none_occurs (pat : Str) :
    ∀ (hay : Str), strFind pat hay = none →
      ∀ j, (hay.drop j).take pat.length ≠ pat := by
  intro hay
  induction hay with
  | nil =>
      intro h j
      unfold strFind at h
      by_cases hp : pat = []
      · simp [hp] at h
      · simp [hp]
  | cons c rest ih =>
      intro h j
      unfold strFind at h
      by_cases hc : (c :: rest).take pat.length = pat
      · simp [hc] at h
      · simp [hc] at h
        match j with
        | 0 => simpa using hc
        | k + 1 => simpa using ih h k

/-- The index returned by strFind lies within the text. -/
theorem strFind_some_le_len (pat : Str) :
    ∀ (hay : Str) (i : Nat), strFind pat hay = some i → i ≤ hay.length := by
  intro hay
  induction hay with
  | nil =>
      intro i h
      unfold strFind at h
      by_cases hp : pat = []
      · simp [hp] at h
        omega
      · simp [hp] at h
  | cons c rest ih =>
      intro i h
      unfold strFind at h
      by_cases hc : (c :: rest).take pat.length = pat
      · simp [hc] at h
        omega
      · simp [hc] at h
        obtain ⟨n, hn, hi⟩ := h
        have := ih n hn
        simp
        omega

/-- The index returned by strFind leaves room for the pattern. -/
theorem strFind_some_le (pat : Str) :
    ∀ (hay : Str) (i : Nat), strFind pat hay = some i →
      i + pat.length ≤ hay.length := by
  intro hay i h
  have hle := strFind_some_le_len pat hay i h
  have hocc := strFind_some_occurs pat hay i h
  have hlen := congrArg List.length hocc
  simp [List.length_take, List.length_drop] at hlen
  omega

/-- Slice facts for the block locator: for a start position s within the
text and the stop position computed from the first terminator occurrence
at or after s (or the text length), the slice glues back onto the suffix
at s, contains no terminator occurrence, and is followed by the
terminator or the end of the text. -/
theorem locate_slice_aux (html : Str) (s stop : Nat)
    (hstop :
      (match strFindFrom terminator html s with
       | some e => e
       | none => html.length) = stop)
    (hsle : s ≤ html.length) :
    s ≤ stop ∧ stop ≤ html.length ∧
    (html.take stop).drop s ++ html.drop stop = html.drop s ∧
    (∀ j, j < ((html.take stop).drop s).length →
        (html.drop (s + j)).take terminator.length ≠ terminator) ∧
    (html.drop stop = [] ∨ (html.drop stop).take terminator.length = terminator) := by
  have hblen : ∀ t : Nat, s ≤ t → t ≤ html.length →
      ((html.take t).drop s).length = t - s := by
    intro t h1 h2
    simp [List.length_drop, List.length_take]
    omega
  have hglue : ∀ t : Nat, s ≤ t →
      (html.take t).drop s ++ html.drop t = html.drop s := by
    intro t h1
    rw [List.drop_take]
    have hdd : html.drop t = (html.drop s).drop (t - s) := by
      rw [List.drop_drop]
      congr 1
      omega
    rw [hdd, List.take_append_drop]
  rcases ht : strFindFrom terminator html s with _ | e
  · rw [ht] at hstop
    simp at hstop
    subst hstop
    have hnone : strFind terminator (html.drop s) = none := by
      unfold strFindFrom at ht
      cases hsf : strFind terminator (html.drop s) with
      | none => rfl
      | some n => rw [hsf] at ht; simp at ht
    refine ⟨hsle, le_refl _, hglue html.length hsle, ?_, Or.inl (List.drop_length html)⟩
    intro j hj
    have := strFind_none_occurs terminator (html.drop s) hnone j
    rwa [List.drop_drop] at this
  · rw [ht] at hstop
    simp at hstop
    subst hstop
    unfold strFindFrom at ht
    obtain ⟨n, hn, hne⟩ : ∃ n, strFind terminator (html.drop s) = some n ∧ n + s = e := by
      cases hsf : strFind terminator (html.drop s) with
      | none => rw [hsf] at ht; simp at ht
      | some n =>
          rw [hsf] at ht
          simp at ht
          exact ⟨n, rfl, ht⟩
    have hnlen := strFind_some_le_len terminator (html.drop s) n hn
    simp [List.length_drop] at hnlen
    have hse : s ≤ e := by omega
    have hel : e ≤ html.length := by omega
    refine ⟨hse, hel, hglue e hse, ?_, Or.inr ?_⟩
    · intro j hj
      rw [hblen e hse hel] at hj
      have hjn : j < n := by omega
      have := strFind_some_first terminator (html.drop s) n hn j hjn
      rwa [List.drop_drop] at this
    · have := strFind_some_occurs terminator (html.drop s) n hn
      rw [List.drop_drop] at this
      rwa [show s + n = e by omega] at this

/-- Claim C3 (amended): whenever the block locator finds a marker, the
text decomposes as pre ++ block ++ rest where the block starts at the
start of the matched marker (the marker text is included in the block,
and the matched marker is the leftmost occurrence, marker1 taking
priority over marker2), no terminator occurrence starts inside the
block, and the block is followed by a terminator occurrence or the end
of the text; a terminator occurrence strictly before the marker position
(inside pre) never bounds the block. -/
theorem locateBlock_marker_included (html b : Str)
    (h : locateBlock html = some b) :
    ∃ pre rest,
      html = pre ++ b ++ rest ∧
      (((b ++ rest).take marker1.length = marker1 ∧
          ∀ j, j < pre.length → (html.drop j).take marker1.length ≠ marker1) ∨
        (strFind marker1 html = none ∧
          (b ++ rest).take marker2.length = marker2 ∧
          ∀ j, j < pre.length → (html.drop j).take marker2.length ≠ marker2)) ∧
      (∀ j, j < b.length → ((b ++ rest).drop j).take terminator.length ≠ terminator) ∧
      (rest = [] ∨ rest.take terminator.length = terminator) := by
  unfold locateBlock at h
  rcases hm1 : strFind marker1 html with _ | s
  · rw [hm1] at h
    rcases hm2 : strFind marker2 html with _ | s
    · rw [hm2] at h
      simp [Option.orElse] at h
    · rw [hm2] at h
      simp only [Option.orElse, Option.some.injEq] at h
      generalize hst :
        (match strFindFrom terminator html s with
         | some e => e
         | none => html.length) = stop at h
      have hsle : s ≤ html.length := strFind_some_le_len marker2 html s hm2
      obtain ⟨hse, hel, hglue, hnoterm, hrest⟩ :=
        locate_slice_aux html s stop hst hsle
      refine ⟨html.take s, html.drop stop, ?_, ?_, ?_, ?_⟩
      · rw [h] at hglue
        rw [List.append_assoc, hglue, List.take_append_drop]
      · refine Or.inr ⟨hm1 ▸ rfl, ?_, ?_⟩
        · rw [h] at hglue
          rw [hglue]
          exact strFind_some_occurs marker2 html s hm2
        · intro j hj
          have hplen : (html.take s).length = s := by
            simp [List.length_take]
            omega
          rw [hplen] at hj
          exact strFind_some_first marker2 html s hm2 j hj
      · intro j hj
        rw [h] at hglue hnoterm
        rw [hglue, List.drop_drop]
        exact hnoterm j hj
      · exact hrest
  · rw [hm1] at h
    simp only [Option.orElse, Option.some.injEq] at h
    generalize hst :
      (match strFindFrom terminator html s with
       | some e => e
       | none => html.length) = stop at h
    have hsle : s ≤ html.length := strFind_some_le_len marker1 html s hm1
    obtain ⟨hse, hel, hglue, hnoterm, hrest⟩ :=
      locate_slice_aux html s stop hst hsle
    refine ⟨html.take s, html.drop stop, ?_, ?_, ?_, ?_⟩
    · rw [h] at hglue
      rw [List.append_assoc, hglue, List.take_append_drop]
    · refine Or.inl ⟨?_, ?_⟩
      · rw [h] at hglue
        rw [hglue]
        exact strFind_some_occurs marker1 html s hm1
      · intro j hj
        have hplen : (html.take s).length = s := by
          simp [List.length_take]
          omega
        rw [hplen] at hj
        exact strFind_some_first marker1 html s hm1 j hj
    · intro j hj
      rw [h] at hglue hnoterm
      rw [hglue, List.drop_drop]
      exact hnoterm j hj
    · exact hrest

/-- Counterexample to claim C3: on a text where marker1 is found, the
located block is not the substring starting at the end of the matched
marker label; the code slices from the start of the marker, so the
marker text itself is part of the block. -/
theorem locateBlock_cex :
    locateBlock "Amazon 売れ筋ランキング:ABカスタマーレビューC".toList =
      some "Amazon 売れ筋ランキング:AB".toList ∧
    locateBlock "Amazon 売れ筋ランキング:ABカスタマーレビューC".toList ≠
      some "AB".toList := by
  constructor
  · decide
  · decide

/-- Witness for locateBlock_marker_included at a text whose terminator
also occurs strictly before the marker: the block still runs from the
marker to the first terminator at or after it. -/
theorem locateBlock_marker_included_witness :
    locateBlock "xカスタマーレビュー売れ筋ランキング:ABカスタマーレビューC".toList =
      some "売れ筋ランキング:AB".toList ∧
    (∃ pre rest,
      "xカスタマーレビュー売れ筋ランキング:ABカスタマーレビューC".toList =
        pre ++ "売れ筋ランキング:AB".toList ++ rest ∧
      ((("売れ筋ランキング:AB".toList ++ rest).take marker1.length = marker1 ∧
          ∀ j, j < pre.length →
            (("xカスタマーレビュー売れ筋ランキング:ABカスタマーレビューC".toList).drop j).take
              marker1.length ≠ marker1) ∨
        (strFind marker1 "xカスタマーレビュー売れ筋ランキング:ABカスタマーレビューC".toList = none ∧
          ("売れ筋ランキング:AB".toList ++ rest).take marker2.length = marker2 ∧
          ∀ j, j < pre.length →
            (("xカスタマーレビュー売れ筋ランキング:ABカスタマーレビューC".toList).drop j).take
              marker2.length ≠ marker2)) ∧
      (∀ j, j < "売れ筋ランキング:AB".toList.length →
          (("売れ筋ランキング:AB".toList ++ rest).drop j).take terminator.length ≠ terminator) ∧
      (rest = [] ∨ rest.take terminator.length = terminator)) :=
  ⟨by decide,
    locateBlock_marker_included
      "xカスタマーレビュー売れ筋ランキング:ABカスタマーレビューC".toList
      "売れ筋ランキング:AB".toList (by decide)⟩

/-- Dropping a satisfying run never lengthens a list. -/
theorem length_dropWhile_le (p : Char → Bool) (l : Str) :
    (l.dropWhile p).length ≤ l.length := by
  induction l with
  | nil => simp [List.dropWhile]
  | cons c t ih =>
      by_cases h : p c
      · simp [List.dropWhile, h]
        omega
      · simp [List.dropWhile, h]

/-- The head of a dropWhile result fails the predicate. -/
theorem dropWhile_head_false (p : Char → Bool) :
    ∀ (l : Str) (c : Char) (t : Str), l.dropWhile p = c :: t → p c = false := by
  intro l
  induction l with
  | nil =>
      intro c t h
      simp [List.dropWhile] at h
  | cons a as ih =>
      intro c t h
      by_cases hp : p a
      · simp [List.dropWhile, hp] at h
        exact ih c t h
      · simp [List.dropWhile, hp] at h
        rw [← h.1]
        simpa using hp

/-- Fuel irrelevance for collapseF: any fuel at least the length of the
input computes the same result. -/
theorem collapseF_fuel :
    ∀ (f g : Nat) (l : Str), l.length ≤ f → l.length ≤ g →
      collapseF f l = collapseF g l := by
  intro f
  induction f with
  | zero =>
      intro g l hf hg
      have hl : l = [] := List.eq_nil_of_length_eq_zero (by omega)
      subst hl
      cases g <;> rfl
  | succ f ih =>
      intro g l hf hg
      cases l with
      | nil => cases g <;> rfl
      | cons c rest =>
          cases g with
          | zero => simp at hg
          | succ g =>
              simp only [collapseF]
              by_cases hc : isWsCh c
              · have hlen := length_dropWhile_le isWsCh rest
                have hr := ih g (rest.dropWhile isWsCh)
                  (by simp at hf; omega) (by simp at hg; omega)
                simp [hc, hr]
              · have hr := ih g rest (by simp at hf; omega) (by simp at hg; omega)
                simp [hc, hr]

/-- Unfolding equation for collapse on a cons cell. -/
theorem collapse_cons (c : Char) (rest : Str) :
    collapse (c :: rest) =
      if isWsCh c then ' ' :: collapse (rest.dropWhile isWsCh)
      else c :: collapse rest := by
  unfold collapse
  simp only [List.length_cons, collapseF]
  by_cases hc : isWsCh c
  · have hr := collapseF_fuel rest.length (rest.dropWhile isWsCh).length
      (rest.dropWhile isWsCh) (length_dropWhile_le isWsCh rest) (le_refl _)
    simp [hc, hr]
  · simp [hc]

/-- Whitespace collapsing is idempotent: its output has no two adjacent
whitespace characters and every whitespace character is a single space,
so collapsing again changes nothing. -/
theorem collapse_idem_aux :
    ∀ (n : Nat) (l : Str), l.length ≤ n → collapse (collapse l) = collapse l := by
  intro n
  induction n with
  | zero =>
      intro l h
      have hl : l = [] := List.eq_nil_of_length_eq_zero (by omega)
      subst hl
      rfl
  | succ n ih =>
      intro l h
      cases l with
      | nil => rfl
      | cons c rest =>
          by_cases hc : isWsCh c
          · have hdw : (collapse (rest.dropWhile isWsCh)).dropWhile isWsCh =
                collapse (rest.dropWhile isWsCh) := by
              cases hr : rest.dropWhile isWsCh with
              | nil => rfl
              | cons d t =>
                  have hd : isWsCh d = false := dropWhile_head_false isWsCh rest d t hr
                  rw [collapse_cons]
                  simp [List.dropWhile, hd]
            have hlen := length_dropWhile_le isWsCh rest
            have hi := ih (rest.dropWhile isWsCh) (by simp at h; omega)
            rw [collapse_cons]
            rw [if_pos (by simp [hc])]
            rw [collapse_cons]
            rw [if_pos (by decide)]
            rw [hdw, hi]
          · have hi := ih rest (by simp at h; omega)
            rw [collapse_cons]
            simp only [hc]
            rw [if_neg (by simp [hc])]
            rw [collapse_cons]
            rw [if_neg (by simp [hc])]
            rw [hi]

/-- Collapsing is idempotent. -/
theorem collapse_idem (l : Str) : collapse (collapse l) = collapse l :=
  collapse_idem_aux l.length l (le_refl _)

/-- On a text with no tag occurrence, tag removal is the identity. -/
theorem stripTagsF_of_noTag :
    ∀ (f : Nat) (l : Str), l.length ≤ f → noTag l = true → stripTagsF f l = l := by
  intro f
  induction f with
  | zero =>
      intro l h hn
      have hl : l = [] := List.eq_nil_of_length_eq_zero (by omega)
      subst hl
      rfl
  | succ f ih =>
      intro l h hn
      cases l with
      | nil => rfl
      | cons c rest =>
          simp only [noTag, Bool.and_eq_true] at hn
          obtain ⟨h1, h2⟩ := hn
          simp only [stripTagsF]
          by_cases hc : c = '<'
          · have hte : tagEnd rest = none := by
              rw [if_pos hc] at h1
              exact Option.isNone_iff_eq_none.mp h1
            rw [if_pos hc, hte]
            rw [ih rest (by simp at h; omega) h2]
          · rw [if_neg hc]
            rw [ih rest (by simp at h; omega) h2]

/-- On a text with no tag occurrence, stripTags is the identity. -/
theorem stripTags_of_noTag (l : Str) (h : noTag l = true) : stripTags l = l :=
  stripTagsF_of_noTag l.length l (le_refl _) h

/-- Counterexample to claim C6: the cleaner is not idempotent.  Removing
the boilerplate phrase 本の売れ筋ランキングを見る from between two
single spaces leaves a double space (whitespace was collapsed before the
phrase removal), which a second clean collapses further. -/
theorem cleanBlock_not_idem_cex :
    cleanBlock (cleanBlock "a 本の売れ筋ランキングを見る b".toList) ≠
      cleanBlock "a 本の売れ筋ランキングを見る b".toList := by
  decide

/-- Claim C6 (amended): the cleaner is idempotent on every block for
which the boilerplate-removal step leaves the tag-stripped,
whitespace-collapsed text unchanged and no tag occurrence survives the
whitespace collapsing; in general idempotence fails, since removing a
boilerplate phrase can merge flanking spaces into a run that only a
second clean collapses (and collapsing a newline can complete a tag that
only a second clean removes). -/
theorem cleanBlock_idem_of (s : Str)
    (h1 : removeBoiler (collapse (stripTags s)) = collapse (stripTags s))
    (h2 : noTag (collapse (stripTags s)) = true) :
    cleanBlock (cleanBlock s) = cleanBlock s := by
  unfold cleanBlock
  rw [h1, stripTags_of_noTag _ h2, collapse_idem (stripTags s), h1]

/-- Witness for cleanBlock_idem_of at a concrete block with no tag,
already-collapsed whitespace and no boilerplate. -/
theorem cleanBlock_idem_of_witness :
    cleanBlock (cleanBlock "ab cd".toList) = cleanBlock "ab cd".toList :=
  cleanBlock_idem_of "ab cd".toList (by decide) (by decide)

/-- Unfolding equation for one iteration of the retry loop. -/
theorem saveRetryGo_succ (att : Nat → SaveOutcome) (i rem : Nat) :
    saveRetryGo att i (rem + 1) =
      match att i with
      | SaveOutcome.success => ⟨true, 1, []⟩
      | SaveOutcome.permError =>
          if rem = 0 then ⟨false, 1, []⟩
          else
            ⟨(saveRetryGo att (i + 1) rem).ok,
             (saveRetryGo att (i + 1) rem).attempts + 1,
             5 :: (saveRetryGo att (i + 1) rem).backoffs⟩
      | SaveOutcome.otherError => ⟨false, 1, []⟩ := rfl

/-- Retry loop under a persistent permission conflict: with at least one
iteration allowed and every attempt in range raising PermissionError, the
loop makes exactly rem attempts with a 5-second backoff between
consecutive attempts and returns false. -/
theorem saveRetryGo_perm (att : Nat → SaveOutcome) :
    ∀ (rem i : Nat), 1 ≤ rem → (∀ j, j < i + rem → att j = SaveOutcome.permError) →
      saveRetryGo att i rem = ⟨false, rem, List.replicate (rem - 1) 5⟩ := by
  intro rem
  induction rem with
  | zero =>
      intro i h
      omega
  | succ rem ih =>
      intro i _ hall
      have hi : att i = SaveOutcome.permError := hall i (by omega)
      cases rem with
      | zero => simp [saveRetryGo, hi]
      | succ r =>
          have hr := ih (i + 1) (by omega) (fun j hj => hall j (by omega))
          rw [saveRetryGo_succ, hi]
          simp [hr, List.replicate_succ]

/-- Claim C7: for every max_retries ≥ 1, the local sheet writer under a
persistent lock/permission conflict makes exactly max_retries attempts
separated by a fixed 5-second backoff and returns false only after all
attempts are exhausted, while a first attempt failing with any other
error class returns false immediately with no retry and no backoff. -/
theorem save_to_excel_with_retry_spec (max : Nat) (a1 a2 : Nat → SaveOutcome)
    (hmax : 1 ≤ max)
    (hperm : ∀ i, i < max → a1 i = SaveOutcome.permError)
    (hother : a2 0 = SaveOutcome.otherError) :
    save_to_excel_with_retry a1 max =
      ⟨false, max, List.replicate (max - 1) 5⟩ ∧
    save_to_excel_with_retry a2 max = ⟨false, 1, []⟩ := by
  constructor
  · exact saveRetryGo_perm a1 max 0 hmax (by simpa using hperm)
  · unfold save_to_excel_with_retry
    cases max with
    | zero => omega
    | succ m => simp [saveRetryGo, hother]

/-- Witness for save_to_excel_with_retry_spec at max_retries = 3: three
attempts with two 5-second backoffs under a persistent permission
conflict, one attempt under another error. -/
theorem save_to_excel_with_retry_spec_witness :
    save_to_excel_with_retry (fun _ => SaveOutcome.permError) 3 =
      ⟨false, 3, [5, 5]⟩ ∧
    save_to_excel_with_retry (fun _ => SaveOutcome.otherError) 3 =
      ⟨false, 1, []⟩ := by
  have h := save_to_excel_with_retry_spec 3
    (fun _ => SaveOutcome.permError) (fun _ => SaveOutcome.otherError)
    (by omega) (fun i _ => rfl) rfl
  refine ⟨?_, h.2⟩
  rw [h.1]
  decide

/-- Totality of the lexicographic comparison on strings. -/
theorem lexLe_total : ∀ a b : Str, lexLe a b = true ∨ lexLe b a = true := by
  intro a
  induction a with
  | nil =>
      intro b
      left
      rfl
  | cons x xs ih =>
      intro b
      cases b with
      | nil =>
          right
          rfl
      | cons y ys =>
          by_cases h1 : x < y
          · left
            simp [lexLe, h1]
          · by_cases h2 : y < x
            · right
              simp [lexLe, h2]
            · rcases ih ys with h | h
              · left
                simp [lexLe, h1, h2, h]
              · right
                simp [lexLe, h1, h2, h]

/-- Totality of the descending row comparison. -/
theorem rowGe_total (a b : Row) : rowGe a b = true ∨ rowGe b a = true := by
  unfold rowGe
  rcases lexLe_total (rowKey b) (rowKey a) with h | h
  · exact Or.inl h
  · exact Or.inr h

/-- Inserting a row into a descending-sorted list keeps it sorted. -/
theorem insertDesc_sorted (r : Row) :
    ∀ l, sortedDesc l = true → sortedDesc (insertDesc r l) = true := by
  intro l
  induction l with
  | nil =>
      intro _
      simp [insertDesc, sortedDesc]
  | cons x xs ih =>
      intro h
      by_cases hx : rowGe r x = true
      · simp [insertDesc, hx, sortedDesc]
        exact h
      · have hxr : rowGe x r = true := by
          rcases rowGe_total r x with h1 | h1
          · exact absurd h1 hx
          · exact h1
        cases xs with
        | nil => simp [insertDesc, hx, sortedDesc, hxr]
        | cons y ys =>
            simp only [sortedDesc, Bool.and_eq_true] at h
            obtain ⟨hxy, hyy⟩ := h
            have hrec := ih hyy
            by_cases hy : rowGe r y = true
            · have hins1 : insertDesc r (y :: ys) = r :: y :: ys := by
                simp [insertDesc, hy]
              have hins2 : insertDesc r (x :: y :: ys) = x :: insertDesc r (y :: ys) := by
                simp [insertDesc, hx]
              rw [hins2, hins1]
              simp [sortedDesc, hxr, hy, hyy]
            · have hins1 : insertDesc r (y :: ys) = y :: insertDesc r ys := by
                simp [insertDesc, hy]
              have hins2 : insertDesc r (x :: y :: ys) = x :: insertDesc r (y :: ys) := by
                simp [insertDesc, hx]
              rw [hins2, hins1]
              rw [hins1] at hrec
              simp [sortedDesc, hxy]
              exact hrec

/-- Insertion sort of rows produces a descending-sorted list. -/
theorem sortDesc_sorted : ∀ l : List Row, sortedDesc (sortDesc l) = true := by
  intro l
  induction l with
  | nil => rfl
  | cons x xs ih =>
      simpa [sortDesc] using insertDesc_sorted x (sortDesc xs) ih

/-- Claim C8: after every successful remote append the worksheet is
sorted by its first (timestamp) column in descending order; in
particular, after two appends with ascending timestamps onto an empty
sheet, the sheet's first row holds the later timestamp. -/
theorem remote_append_sorted :
    (∀ (sheet : List Row) (row : Row),
      sortedDesc (append_row_and_sort sheet row) = true) ∧
    (append_row_and_sort
        (append_row_and_sort [] ["2025/01/01 10:00".toList, ['a']])
        ["2025/01/02 10:00".toList, ['b']]).head? =
      some ["2025/01/02 10:00".toList, ['b']] := by
  constructor
  · intro sheet row
    exact sortDesc_sorted (sheet ++ [row])
  · decide

/-- Counterexample to claim C9: the remote writer does not return a
success boolean; the Python function returns None on the success path as
well as on a caught failure. -/
theorem append_to_google_sheet_cex :
    (append_to_google_sheet (some "c".toList) RemoteOutcome.ok).retVal ≠ some true ∧
    (append_to_google_sheet (some "c".toList) RemoteOutcome.appendFail).retVal ≠ some false := by
  constructor
  · decide
  · decide

/-- Claim C9 (amended): the remote writer catches every failure (no
exception escapes), never retries internally (at most one append call
per invocation), and returns None on every path rather than a success
boolean; on the full success path it issues exactly one append and one
sort. -/
theorem append_to_google_sheet_amended (creds : Option Str) (out : RemoteOutcome) :
    (append_to_google_sheet creds out).raised = false ∧
    (append_to_google_sheet creds out).retVal = none ∧
    (append_to_google_sheet creds out).appendCalls ≤ 1 ∧
    (∀ c, creds = some c → out = RemoteOutcome.ok →
      (append_to_google_sheet creds out).appendCalls = 1 ∧
      (append_to_google_sheet creds out).sortCalls = 1) := by
  cases creds <;> cases out <;> simp [append_to_google_sheet]

/-- Witness for append_to_google_sheet_amended on the success path with
credentials present. -/
theorem append_to_google_sheet_amended_witness :
    (append_to_google_sheet (some "c".toList) RemoteOutcome.ok).retVal = none ∧
    (append_to_google_sheet (some "c".toList) RemoteOutcome.ok).appendCalls = 1 := by
  refine ⟨(append_to_google_sheet_amended (some "c".toList) RemoteOutcome.ok).2.1, ?_⟩
  exact ((append_to_google_sheet_amended (some "c".toList) RemoteOutcome.ok).2.2.2
    "c".toList rfl rfl).1

/-- Claim C10: with the remote credentials configuration absent, the
remote write is skipped entirely (no append, no sort, no exception) and
the local write path still runs unchanged with the same record: its
primary and backup outcomes are identical to a run with credentials
present. -/
theorem runMain_skip_remote_on_missing_creds
    (rout : RemoteOutcome) (att attB : Nat → SaveOutcome) (row : List Str) :
    (runMain none rout att attB row).remote.appendCalls = 0 ∧
    (runMain none rout att attB row).remote.sortCalls = 0 ∧
    (runMain none rout att attB row).remote.raised = false ∧
    (runMain none rout att attB row).localRow = row ∧
    (∀ c, (runMain (some c) rout att attB row).localPrimary =
        (runMain none rout att attB row).localPrimary ∧
      (runMain (some c) rout att attB row).localBackup =
        (runMain none rout att attB row).localBackup ∧
      (runMain (some c) rout att attB row).localRow =
        (runMain none rout att attB row).localRow) := by
  cases h : (save_to_excel_with_retry att 3).ok <;>
    simp [runMain, append_to_google_sheet, h]

end AmazonRanking
